/-
Verification of the DeepTanslatey streaming-transcription pipeline
(`src/translator.py`, `src/transcriber.py`) against its specification.

The Python source is shallowly embedded: each class is a Lean structure,
each method a pure function returning its result together with the updated
state.  `time.time()` is passed in as an explicit `now : Nat` (seconds);
within a single call the source reads the clock essentially once, so a
single `now` parameter is used per call.  Provider backends
(`deep_translator` / `deepl` objects) are modelled as functions
`String → Option String`, where `none` stands for the call raising an
exception.  `langdetect.detect` is likewise an oracle
`String → Option String` (`none` = detection unavailable or raising).
`hashlib.md5(...).hexdigest()` on long keys is an abstract function
`String → String` carried in the configuration; no claim depends on the
concrete hash.  Rate-limiting sleeps and `print` calls have no effect on
any state the claims mention and are dropped.
-/
import Mathlib

namespace DeepTanslatey

/-- Python `not text.strip()`: true iff the text is empty or
whitespace-only — `strip()` removes leading and trailing whitespace, so
its result is falsy exactly when every character is whitespace. -/
def isBlank (s : String) : Bool := s.data.all (·.isWhitespace)

/-! ## TranslationCache (`translator.py` lines 30-137)

`OrderedDict` entries are a list ordered least-recently-used first
(`move_to_end` appends at the back, `popitem(last=False)` pops the front).
The `_timestamps` dict is kept in lock-step with `_cache` by the source, so
both are modelled as a single entry record. -/

/-- One cache entry: the key, the cached value and the `_timestamps[key]`
time at which it was stored. -/
structure CEntry where
  key : String
  value : String
  storedAt : Nat
  deriving DecidableEq, Repr

/-- State of `TranslationCache`: `maxsize`, `ttl_seconds` and the ordered
map, least-recently-used entry first. -/
structure Cache where
  maxsize : Nat
  ttl : Nat
  entries : List CEntry
  deriving DecidableEq, Repr

/-- A freshly constructed cache with no persisted file: `_cache` empty. -/
def emptyCache (maxsize ttl : Nat) : Cache := ⟨maxsize, ttl, []⟩

/-- The resident keys, least-recently-used first. -/
def ckeys (c : Cache) : List String := c.entries.map (·.key)

/-- `TranslationCache.get` (lines 93-106): on a resident key, if
`now - storedAt > ttl` the entry is deleted and `None` returned; otherwise
the entry is moved to the most-recently-used end and its value returned.
With distinct keys (an `OrderedDict` invariant) the `filter` removes
exactly the found entry. -/
def cacheGet (now : Nat) (c : Cache) (k : String) : Option String × Cache :=
  match c.entries.find? (fun e => e.key == k) with
  | none => (none, c)
  | some e =>
    if now - e.storedAt > c.ttl then
      (none, { c with entries := c.entries.filter (fun e' => e'.key != k) })
    else
      (some e.value, { c with entries := c.entries.filter (fun e' => e'.key != k) ++ [e] })

/-- `TranslationCache.set` (lines 108-125).  Existing key: `move_to_end`
then overwrite value and timestamp.  New key at capacity: `popitem(last=False)`
drops the least-recently-used head, then insert.  (For `maxsize = 0` the
source's `popitem` on an empty dict would raise; here the head drop of an
empty list is a no-op, and every theorem assumes `1 ≤ maxsize`.)
The boolean reports whether `_save_to_disk` was triggered, i.e. whether the
post-insert size satisfies `len(self._cache) % 10 == 0`. -/
def cacheSet (now : Nat) (c : Cache) (k v : String) : Cache × Bool :=
  let entries :=
    if c.entries.any (fun e => e.key == k) then
      c.entries.filter (fun e => e.key != k) ++ [⟨k, v, now⟩]
    else if c.entries.length ≥ c.maxsize then
      c.entries.tail ++ [⟨k, v, now⟩]
    else
      c.entries ++ [⟨k, v, now⟩]
  ({ c with entries := entries }, decide (entries.length % 10 = 0))

/-- Reference lookup: the value `get` would return at time `now`, without
performing `get`'s state update (resident and not older than `ttl`). -/
def getVal (now : Nat) (c : Cache) (k : String) : Option String :=
  match c.entries.find? (fun e => e.key == k) with
  | none => none
  | some e => if now - e.storedAt > c.ttl then none else some e.value

/-- A sequence of `set` calls, applied left to right. -/
def applySets (now : Nat) (c : Cache) : List (String × String) → Cache
  | [] => c
  | (k, v) :: rest => applySets now (cacheSet now c k v).1 rest

/-- A sequence of `set` calls, also counting how many triggered
`_save_to_disk`. -/
def applySetsCount (now : Nat) (c : Cache) : List (String × String) → Cache × Nat
  | [] => (c, 0)
  | (k, v) :: rest =>
    let s := cacheSet now c k v
    let r := applySetsCount now s.1 rest
    (r.1, (if s.2 then 1 else 0) + r.2)

/-- First-occurrence deduplication: keeps the first occurrence of each
element, preserving order. -/
def dedupHead : List String → List String
  | [] => []
  | k :: rest => k :: (dedupHead rest).filter (fun x => x != k)

/-- The distinct keys of a `set` sequence in most-recently-set-first
order. -/
def mruKeys (ops : List (String × String)) : List String :=
  dedupHead (ops.map Prod.fst).reverse

/-- The action of `cacheSet` on the key list alone (values and timestamps
do not influence residency). -/
def setKey (m : Nat) (ks : List String) (k : String) : List String :=
  if ks.any (fun x => x == k) then ks.filter (fun x => x != k) ++ [k]
  else if ks.length ≥ m then ks.tail ++ [k]
  else ks ++ [k]

/-! ## TranslationService (`translator.py` lines 140-396) -/

/-- The `_quality_metrics` counters (lines 168-175). -/
structure Metrics where
  deepl_requests : Nat
  deepl_errors : Nat
  google_requests : Nat
  google_errors : Nat
  cache_hits : Nat
  total_requests : Nat
  deriving DecidableEq, Repr

/-- Counters at construction time. -/
def Metrics.zero : Metrics := ⟨0, 0, 0, 0, 0, 0⟩

/-- A translation backend object: `translate(text)` either returns a
translation or raises, the latter modelled as `none`. -/
abbrev Provider := String → Option String

/-- Configuration of a `TranslationService` as left by `__init__` and
`_init_impl`; none of these fields is mutated by the translation paths. -/
structure ServiceCfg where
  impl : Option Provider
  preferredProvider : String
  fallback : Option Provider
  enableCache : Bool
  autoDetect : Bool
  detect : String → Option String
  target : String
  source : String
  hash : String → String

/-- The mutable state of a `TranslationService`: its cache and counters. -/
structure ServiceState where
  cache : Cache
  metrics : Metrics

/-- `_get_cache_key` (lines 224-229): texts longer than 100 characters are
keyed by a content hash, shorter ones by the raw text. -/
def get_cache_key (cfg : ServiceCfg) (text : String) : String :=
  if text.length > 100 then cfg.hash text else text

/-- `_detect_language` (lines 349-358): `none` when detection is disabled,
unavailable, or the detector raises. -/
def detect_language (cfg : ServiceCfg) (text : String) : Option String :=
  if cfg.autoDetect then cfg.detect text else none

/-- Python truthiness of `detected_lang and detected_lang == self.target`
(line 367): the short-circuit fires when detection produced a non-empty
string equal to the target language. -/
def detectedTarget (cfg : ServiceCfg) (text : String) : Bool :=
  match detect_language cfg text with
  | none => false
  | some l => !l.isEmpty && l == cfg.target

/-- The preferred-provider try-block of `_translate_with_fallback`
(lines 238-261): the translation (`none` when the provider raised or no
branch applied) together with the updated counters. Only the "deepl" and
"google" kinds count requests and errors; a "mock" provider is called
without touching counters; any other kind (`self.impl` set but
`preferred_provider` matching no branch) issues no call at all and falls
through to the fallback. -/
def attemptPreferred (cfg : ServiceCfg) (m : Metrics) (text : String) :
    Option String × Metrics :=
  match cfg.impl with
  | none => (none, m)
  | some p =>
    if cfg.preferredProvider == "deepl" then
      let m1 := { m with deepl_requests := m.deepl_requests + 1 }
      match p text with
      | some r => (some r, m1)
      | none => (none, { m1 with deepl_errors := m1.deepl_errors + 1 })
    else if cfg.preferredProvider == "google" then
      let m1 := { m with google_requests := m.google_requests + 1 }
      match p text with
      | some r => (some r, m1)
      | none => (none, { m1 with google_errors := m1.google_errors + 1 })
    else if cfg.preferredProvider == "mock" then
      match p text with
      | some r => (some r, m)
      | none => (none, m)
    else (none, m)

/-- `_translate_with_fallback` (lines 231-275): blank text returns
unchanged before any counter; otherwise `total_requests` is incremented,
the preferred provider attempted, and on failure the fallback is tried
once (its request counted as a google request, line 266); if everything
fails the input text is returned. -/
def translate_with_fallback (cfg : ServiceCfg) (m : Metrics) (text : String) :
    String × Metrics :=
  if isBlank text then (text, m)
  else
    let m0 := { m with total_requests := m.total_requests + 1 }
    match attemptPreferred cfg m0 text with
    | (some r, m1) => (r, m1)
    | (none, m1) =>
      match cfg.fallback with
      | some f =>
        let m2 := { m1 with google_requests := m1.google_requests + 1 }
        match f text with
        | some r => (r, m2)
        | none => (text, { m2 with google_errors := m2.google_errors + 1 })
      | none => (text, m1)

/-- The value `attemptPreferred` produces, which never depends on the
incoming counters. -/
def preferredResult (cfg : ServiceCfg) (text : String) : Option String :=
  match cfg.impl with
  | none => none
  | some p =>
    if cfg.preferredProvider == "deepl" then p text
    else if cfg.preferredProvider == "google" then p text
    else if cfg.preferredProvider == "mock" then p text
    else none

/-- The value `_translate_with_fallback` produces, independent of the
counters: the preferred result, else the fallback result, else the text
unchanged. -/
def fallbackResult (cfg : ServiceCfg) (text : String) : String :=
  if isBlank text then text
  else
    match preferredResult cfg text with
    | some r => r
    | none =>
      match cfg.fallback with
      | some f => (f text).getD text
      | none => text

/-- First loop of `translate_batch` (lines 298-313): per text, blank texts
pass straight into the results, cache hits fill their slot, misses leave a
`none` placeholder and are appended (in order) to the uncached list; the
`get` calls mutate the cache (recency, expiry eviction). -/
def batchScan (cfg : ServiceCfg) (now : Nat) :
    List String → Cache → List (Option String) × List String × Cache
  | [], c => ([], [], c)
  | t :: rest, c =>
    if isBlank t then
      let r := batchScan cfg now rest c
      (some t :: r.1, r.2.1, r.2.2)
    else if cfg.enableCache then
      let g := cacheGet now c (get_cache_key cfg t)
      match g.1 with
      | some v =>
        let r := batchScan cfg now rest g.2
        (some v :: r.1, r.2.1, r.2.2)
      | none =>
        let r := batchScan cfg now rest g.2
        (none :: r.1, t :: r.2.1, r.2.2)
    else
      let r := batchScan cfg now rest c
      (none :: r.1, t :: r.2.1, r.2.2)

/-- `_translate_batch_api` (lines 330-347): the rate-limiting sleep and
`_last_request_time` update affect no result; each text is translated by
`_translate_with_fallback` in order, threading the counters. -/
def translate_batch_api (cfg : ServiceCfg) :
    List String → Metrics → List String × Metrics
  | [], m => ([], m)
  | t :: rest, m =>
    let s := translate_with_fallback cfg m t
    let r := translate_batch_api cfg rest s.2
    (s.1 :: r.1, r.2)

/-- Second loop of `translate_batch` (lines 320-326): `uncached_indices`
are exactly the positions of the `none` placeholders, in increasing order,
so `results[original_idx] = translated` replaces the placeholders left to
right; `uncached_texts[j]` equals `texts[original_idx]`, carried here as
the first component of the pending pair. A translation is cached only when
it differs from its original text. The placeholder-without-pending case is
unreachable (the api yields one translation per uncached text). -/
def batchFill (cfg : ServiceCfg) (now : Nat) :
    List (Option String) → List (String × String) → Cache → List String × Cache
  | [], _, c => ([], c)
  | some r :: rs, pend, c =>
    let s := batchFill cfg now rs pend c
    (r :: s.1, s.2)
  | none :: rs, [], c =>
    let s := batchFill cfg now rs [] c
    ("" :: s.1, s.2)
  | none :: rs, (t, tr) :: pend, c =>
    let c1 :=
      if cfg.enableCache && tr != t then (cacheSet now c (get_cache_key cfg t) tr).1 else c
    let s := batchFill cfg now rs pend c1
    (tr :: s.1, s.2)

/-- `translate_batch` (lines 288-328). When nothing was uncached the
source returns `results` as accumulated (it then contains no `None`, so
the placeholder extraction is vacuous). -/
def translate_batch (cfg : ServiceCfg) (now : Nat) (st : ServiceState)
    (texts : List String) : List String × ServiceState :=
  if texts.isEmpty || cfg.impl.isNone then (texts, st)
  else
    let scan := batchScan cfg now texts st.cache
    if scan.2.1.isEmpty then
      (scan.1.map (fun o => o.getD ""), { st with cache := scan.2.2 })
    else
      let api := translate_batch_api cfg scan.2.1 st.metrics
      let fill := batchFill cfg now scan.1 (scan.2.1.zip api.1) scan.2.2
      (fill.1, ⟨fill.2, api.2⟩)

/-- `translate` (lines 360-383): blank input or no provider returns the
input unchanged; a detection hit on the target language short-circuits;
otherwise the cache is consulted (a hit increments `cache_hits` and
returns), and a miss delegates to a one-element `translate_batch`, whose
single result is taken (`[0]`). -/
def translate (cfg : ServiceCfg) (now : Nat) (st : ServiceState)
    (text : String) : String × ServiceState :=
  if isBlank text || cfg.impl.isNone then (text, st)
  else if detectedTarget cfg text then (text, st)
  else if cfg.enableCache then
    let g := cacheGet now st.cache (get_cache_key cfg text)
    match g.1 with
    | some v => (v, ⟨g.2, { st.metrics with cache_hits := st.metrics.cache_hits + 1 }⟩)
    | none =>
      let r := translate_batch cfg now ⟨g.2, st.metrics⟩ [text]
      (r.1.headD "", r.2)
  else
    let r := translate_batch cfg now st [text]
    (r.1.headD "", r.2)

/-- What the first batch loop decides for one text against the pre-call
cache: blank and cached texts get a value, misses get `none`. -/
def scanCell (cfg : ServiceCfg) (now : Nat) (c : Cache) (t : String) : Option String :=
  if isBlank t then some t
  else if cfg.enableCache then getVal now c (get_cache_key cfg t)
  else none

/-- The per-item result of a batch in terms of the pre-call cache. -/
def itemVal (cfg : ServiceCfg) (now : Nat) (c : Cache) (t : String) : String :=
  match scanCell cfg now c t with
  | some v => v
  | none => fallbackResult cfg t

/-! ## DeepgramTranscriber (`transcriber.py`)

The translation queue (`Queue(maxsize=100)`, line 76), the producer in
`_build_message_handler` (lines 344-350), the consumer
`_translation_worker` / `_process_translation_batch` (lines 83-150), and
the keepalive loop `_keepalive_worker` (lines 152-168). -/

/-- A queued translation request `(transcript, timestamp, callback)`, the
callback identified by an id. -/
abbrev QItem := String × String × Nat

/-- `put_nowait` on the bounded queue: appends when fewer than `cap` items
are resident; on a full queue it raises `Full`, which the producer catches
by dropping the item (reported as `false`). -/
def putNowait (cap : Nat) (q : List QItem) (x : QItem) : List QItem × Bool :=
  if q.length < cap then (q ++ [x], true) else (q, false)

/-- A sequence of producer enqueues with no concurrent consumer: the final
queue and the list of dropped items. -/
def enqueueAll (cap : Nat) (q : List QItem) : List QItem → List QItem × List QItem
  | [] => (q, [])
  | x :: rest =>
    let p := putNowait cap q x
    let r := enqueueAll cap p.1 rest
    (r.1, (if p.2 then ([] : List QItem) else [x]) ++ r.2)

/-- `_translation_worker` pulls up to 5 items per batch
(`while len(batch_items) < 5`), so draining a queue of length `n` yields
ceil(n / 5) batches of at most 5. -/
def chunks5 : List QItem → List (List QItem)
  | [] => []
  | x :: rest => (x :: rest.take 4) :: chunks5 (rest.drop 4)
termination_by l => l.length
decreasing_by simp; omega

/-- The items whose completion callback `_process_translation_batch`
invokes: every item of every batch the worker pulled, i.e. exactly the
queued items. A dropped item never enters the queue, hence no batch. -/
def processedItems (q : List QItem) : List QItem := (chunks5 q).flatten

/-- The 1920-byte zero frame sent as keepalive (20ms of silence, line
155). -/
def silencePacketSize : Nat := 1920

/-- The keepalive condition checked each cycle (line 163):
`current_time - self.last_audio_time > 8.0`. -/
def keepaliveSends (lastAudioTime t : Nat) : Bool := decide (t - lastAudioTime > 8)

/-- One iteration of the keepalive loop at wall-clock time `t`: the frame
sent, if any, and `last_audio_time` afterwards — which the loop never
modifies (line 165). -/
def keepaliveCycle (lastAudioTime t : Nat) : Option Nat × Nat :=
  (if keepaliveSends lastAudioTime t then some silencePacketSize else none, lastAudioTime)

/-- The loop sleeps 5 seconds before each check (line 159): the `i`-th
check after `start` happens at `start + 5 * (i + 1)`. -/
def cycleTime (start i : Nat) : Nat := start + 5 * (i + 1)

/-- The read loop's update of `last_audio_time` at time `t` after a read
returning `dataLen` bytes (lines 249-252): nonempty data is sent and
resets the timer; an empty read leaves it alone. -/
def audioSendStep (lastAudioTime t dataLen : Nat) : Nat :=
  if dataLen ≠ 0 then t else lastAudioTime

/-! ### Cache lemmas -/

theorem cacheGet_fst_eq_getVal (now : Nat) (c : Cache) (k : String) :
    (cacheGet now c k).1 = getVal now c k := by
  unfold cacheGet getVal
  cases h : c.entries.find? (fun e => e.key == k) with
  | none => rfl
  | some e => by_cases hl : now - e.storedAt > c.ttl <;> simp [hl]

theorem ckeys_cacheSet (now : Nat) (c : Cache) (k v : String) :
    ckeys (cacheSet now c k v).1 = setKey c.maxsize (ckeys c) k := by
  have hfil : List.filter ((fun x => x != k) ∘ fun x : CEntry => x.key) c.entries
      = List.filter (fun e => e.key != k) c.entries := rfl
  by_cases h1 : c.entries.any (fun e => e.key == k) <;>
    simp only [List.any_eq_true, beq_iff_eq] at h1 <;>
      by_cases h2 : c.entries.length ≥ c.maxsize <;>
        simp [cacheSet, setKey, ckeys, h1, h2, List.any_map, List.filter_map,
          List.any_eq_true, hfil, List.map_tail]

theorem dedupHead_nodup (l : List String) : (dedupHead l).Nodup := by
  induction l with
  | nil => exact List.nodup_nil
  | cons k rest ih =>
    refine List.nodup_cons.mpr ⟨?_, ih.filter _⟩
    intro hk
    have := (List.mem_filter.mp hk).2
    simp at this

theorem take_filter_ne_of_nodup (k : String) :
    ∀ (D : List String) (m : Nat), D.Nodup → k ∈ D.take (m + 1) →
      (D.filter (fun x => x != k)).take m = (D.take (m + 1)).filter (fun x => x != k) := by
  intro D
  induction D with
  | nil => intro m _ h; simp at h
  | cons d D' ih =>
    intro m hnd hk
    have hd' : d ∉ D' := (List.nodup_cons.mp hnd).1
    have hnd' : D'.Nodup := (List.nodup_cons.mp hnd).2
    by_cases hdk : d = k
    · subst hdk
      have h1 : D'.filter (fun x => x != d) = D' :=
        List.filter_eq_self.mpr (fun x hx => by
          simp only [bne_iff_ne, ne_eq, decide_eq_true_eq]
          exact fun h => hd' (h ▸ hx))
      have h2 : (D'.take m).filter (fun x => x != d) = D'.take m :=
        List.filter_eq_self.mpr (fun x hx => by
          simp only [bne_iff_ne, ne_eq, decide_eq_true_eq]
          exact fun h => hd' (h ▸ List.take_subset m D' hx))
      simp [h1, h2]
    · have hk' : k ∈ D'.take m := by
        simp only [List.take_succ_cons, List.mem_cons] at hk
        exact hk.resolve_left (fun h => hdk h.symm)
      cases m with
      | zero => simp at hk'
      | succ m' =>
        have hstep := ih m' hnd' hk'
        simp only [List.filter_cons, List.take_succ_cons]
        have hdkb : (d != k) = true := by simp [hdk]
        simp [hdkb, hstep]

theorem take_filter_ne_of_not_mem (k : String) :
    ∀ (D : List String) (n : Nat), k ∉ D.take n →
      (D.filter (fun x => x != k)).take n = D.take n := by
  intro D
  induction D with
  | nil => intro n _; simp
  | cons d D' ih =>
    intro n hk
    cases n with
    | zero => simp
    | succ n' =>
      simp only [List.take_succ_cons, List.mem_cons, not_or] at hk
      have hdkb : (d != k) = true := by simp; exact fun h => hk.1 h.symm
      simp only [List.filter_cons, hdkb, if_true, List.take_succ_cons]
      rw [ih n' hk.2]

theorem setKey_length (m : Nat) (ks : List String) (k : String)
    (hm : 1 ≤ m) (h : ks.length ≤ m) : (setKey m ks k).length ≤ m := by
  unfold setKey
  by_cases h1 : ks.any (fun x => x == k)
  · have hk : k ∈ ks := by
      simp only [List.any_eq_true, beq_iff_eq] at h1
      obtain ⟨x, hx, hxe⟩ := h1
      exact hxe ▸ hx
    have hlt : (ks.filter (fun x => x != k)).length < ks.length := by
      apply List.length_filter_lt_length_iff_exists.mpr
      exact ⟨k, hk, by simp⟩
    simp only [h1, if_true, List.length_append, List.length_cons, List.length_nil]
    omega
  · by_cases h2 : ks.length ≥ m <;>
      simp only [h1, h2, if_true, if_false, Bool.false_eq_true, List.length_append,
        List.length_tail, List.length_cons, List.length_nil] <;> omega

theorem foldl_setKey_length (m : Nat) (hm : 1 ≤ m) :
    ∀ (ks : List String) (l : List String), l.length ≤ m →
      (ks.foldl (setKey m) l).length ≤ m := by
  intro ks
  induction ks with
  | nil => intro l h; exact h
  | cons k rest ih =>
    intro l h
    exact ih _ (setKey_length m l k hm h)

theorem foldl_setKey_eq (m : Nat) (hm : 1 ≤ m) :
    ∀ ks : List String, ks.foldl (setKey m) [] = ((dedupHead ks.reverse).take m).reverse := by
  intro ks
  induction ks using List.reverseRecOn with
  | nil => simp [dedupHead]
  | append_singleton ks k ih =>
    rw [List.foldl_append, List.foldl_cons, List.foldl_nil, ih]
    have hrev : (ks ++ [k]).reverse = k :: ks.reverse := by simp
    rw [hrev]
    set D := dedupHead ks.reverse with hD
    have hDnd : D.Nodup := dedupHead_nodup _
    obtain ⟨m', rfl⟩ : ∃ m', m = m' + 1 := ⟨m - 1, by omega⟩
    show setKey (m' + 1) (D.take (m' + 1)).reverse k
        = ((dedupHead (k :: ks.reverse)).take (m' + 1)).reverse
    have hded : dedupHead (k :: ks.reverse) = k :: D.filter (fun x => x != k) := rfl
    rw [hded, List.take_succ_cons]
    unfold setKey
    by_cases h1 : (D.take (m' + 1)).reverse.any (fun x => x == k)
    · have hk : k ∈ D.take (m' + 1) := by
        simp only [List.any_eq_true, beq_iff_eq, List.mem_reverse] at h1
        obtain ⟨x, hx, rfl⟩ := h1
        exact hx
      simp only [h1, if_true]
      rw [List.filter_reverse, take_filter_ne_of_nodup k D m' hDnd hk]
      simp
    · have hk : k ∉ D.take (m' + 1) := by
        intro hmem
        apply h1
        simp only [List.any_eq_true, beq_iff_eq, List.mem_reverse]
        exact ⟨k, hmem, rfl⟩
      simp only [h1, if_false, Bool.false_eq_true, List.length_reverse, List.length_take]
      by_cases h2 : min (m' + 1) D.length ≥ m' + 1
      · have hlen : m' < D.length := by omega
        have htk : D.take (m' + 1) = D.take m' ++ [D[m']] := by
          rw [List.take_succ, List.getElem?_eq_getElem hlen]
          rfl
        have hk' : k ∉ D.take m' := fun h => hk (htk ▸ List.mem_append_left _ h)
        simp only [h2, if_true]
        rw [htk, List.reverse_append, take_filter_ne_of_not_mem k D m' hk']
        simp
      · have hlen : D.length ≤ m' := by omega
        have htk : D.take (m' + 1) = D := List.take_of_length_le (by omega)
        have hkD : k ∉ D := fun h => hk (by rwa [htk])
        have hfil : D.filter (fun x => x != k) = D :=
          List.filter_eq_self.mpr (fun x hx => by
            simp only [bne_iff_ne, ne_eq, decide_eq_true_eq]
            exact fun h => hkD (h ▸ hx))
        simp only [h2, if_false, Bool.false_eq_true, htk, hfil]
        rw [List.take_of_length_le hlen]
        simp

theorem applySets_maxsize (now : Nat) (c : Cache) :
    ∀ ops : List (String × String), (applySets now c ops).maxsize = c.maxsize := by
  intro ops
  induction ops generalizing c with
  | nil => rfl
  | cons op rest ih => exact ih _

theorem ckeys_applySets (now : Nat) :
    ∀ (ops : List (String × String)) (c : Cache),
      ckeys (applySets now c ops) = (ops.map Prod.fst).foldl (setKey c.maxsize) (ckeys c) := by
  intro ops
  induction ops with
  | nil => intro c; rfl
  | cons op rest ih =>
    intro c
    cases op with
    | mk k v =>
      show ckeys (applySets now (cacheSet now c k v).1 rest)
          = (rest.map Prod.fst).foldl (setKey c.maxsize) (setKey c.maxsize (ckeys c) k)
      rw [ih ((cacheSet now c k v).1), ckeys_cacheSet]
      rfl

theorem find?_key_eq_of_mem {l : List CEntry} {e : CEntry}
    (hnd : (l.map (·.key)).Nodup) (he : e ∈ l) :
    l.find? (fun e' => e'.key == e.key) = some e := by
  induction l with
  | nil => simp at he
  | cons a rest ih =>
    rcases List.mem_cons.mp he with rfl | hrest
    · exact List.find?_cons_of_pos _ (by simp)
    · have hne : ¬ (a.key == e.key) = true := by
        simp only [beq_iff_eq]
        intro hkey
        have hmem : e.key ∈ rest.map (·.key) := List.mem_map_of_mem _ hrest
        rw [← hkey] at hmem
        exact (List.nodup_cons.mp (by simpa using hnd)).1 hmem
      have hne' : (a.key == e.key) = false := by simpa using hne
      simp only [List.find?_cons, hne', cond_false]
      exact ih (List.nodup_cons.mp (by simpa using hnd)).2 hrest

theorem any_key_eq_false_of_not_mem {c : Cache} {k : String} (h : k ∉ ckeys c) :
    (c.entries.any fun e => e.key == k) = false := by
  rw [Bool.eq_false_iff]
  intro hc
  simp only [List.any_eq_true, beq_iff_eq] at hc
  obtain ⟨e, he, hkey⟩ := hc
  exact h (hkey ▸ List.mem_map_of_mem _ he)

/-! ## Claims C1, C2, C7 -/

/-- C1, counterexample: the claim says `get` misses (and evicts) as soon as
`now - storedAt >= ttl`, but `TranslationCache.get` tests
`time.time() - self._timestamps.get(key, 0) > self.ttl_seconds` with a
strict `>`.  At age exactly `ttl` (here `now = 10`, `storedAt = 0`,
`ttl = 10`, so `now - storedAt ≥ ttl`) the entry is still returned. -/
theorem C1_counterexample :
    (10 : Nat) - 0 ≥ 10 ∧
      (cacheGet 10 ⟨1000, 10, [⟨"k", "v", 0⟩]⟩ "k").1 = some "v" := by
  exact ⟨by norm_num, rfl⟩

/-- C1 (amended): for every resident cache entry, `get` returns its value
iff `now - storedAt ≤ ttl` (so a miss happens strictly after `ttl`, not at
`ttl` itself), and whenever `now - storedAt > ttl` the entry is evicted by
that `get`: the resulting cache no longer contains the key. -/
theorem C1_get_ttl_amended (now : Nat) (c : Cache) (e : CEntry)
    (hnd : (ckeys c).Nodup) (he : e ∈ c.entries) :
    ((cacheGet now c e.key).1 = some e.value ↔ now - e.storedAt ≤ c.ttl)
    ∧ (c.ttl < now - e.storedAt →
        (cacheGet now c e.key).2.entries.find? (fun e' => e'.key == e.key) = none) := by
  have hf : c.entries.find? (fun e' => e'.key == e.key) = some e :=
    find?_key_eq_of_mem hnd he
  constructor
  · unfold cacheGet
    rw [hf]
    by_cases hl : now - e.storedAt > c.ttl
    · simp [hl]
      omega
    · simp [hl]
      omega
  · intro hexp
    unfold cacheGet
    rw [hf]
    have hl : now - e.storedAt > c.ttl := hexp
    simp only [hl, if_true]
    apply List.find?_eq_none.mpr
    intro x hx
    have hxk := (List.mem_filter.mp hx).2
    simp only [bne_iff_ne, ne_eq, decide_eq_true_eq] at hxk
    simp [hxk]

/-- Witness for `C1_get_ttl_amended`: a fresh entry (`storedAt = 0`,
`ttl = 10`) read at `now = 5` is returned. -/
theorem C1_get_ttl_amended_witness :
    (cacheGet 5 ⟨1000, 10, [⟨"k", "v", 0⟩]⟩ "k").1 = some "v" :=
  (C1_get_ttl_amended 5 ⟨1000, 10, [⟨"k", "v", 0⟩]⟩ ⟨"k", "v", 0⟩
    (by simp [ckeys]) (by simp)).1.mpr (by norm_num)

/-- C2: for every sequence of `set` calls whose distinct keys exceed
`maxsize` (and positive `maxsize`; with `maxsize = 0` the source's
`popitem` on an empty dict raises), the resident keys after the sequence
are exactly the `maxsize` most-recently-set keys — listed here
least-recently-used first, hence the `reverse` of the first `maxsize`
entries of the most-recent-first key list `mruKeys` — the cache then holds
exactly `maxsize` entries, and after every prefix of the sequence it holds
at most `maxsize` entries. -/
theorem C2_strict_lru (now m T : Nat) (ops : List (String × String))
    (hm : 1 ≤ m) (hx : m < (mruKeys ops).length) :
    ckeys (applySets now (emptyCache m T) ops) = ((mruKeys ops).take m).reverse
    ∧ (ckeys (applySets now (emptyCache m T) ops)).length = m
    ∧ ∀ n, (applySets now (emptyCache m T) (ops.take n)).entries.length ≤ m := by
  have hkeys : ∀ ops' : List (String × String),
      ckeys (applySets now (emptyCache m T) ops') = ((mruKeys ops').take m).reverse := by
    intro ops'
    rw [ckeys_applySets]
    have : (ops'.map Prod.fst).foldl (setKey m) []
        = ((dedupHead (ops'.map Prod.fst).reverse).take m).reverse :=
      foldl_setKey_eq m hm _
    exact this
  refine ⟨hkeys ops, ?_, ?_⟩
  · rw [hkeys ops]
    simp only [mruKeys] at hx ⊢
    simp only [List.length_reverse, List.length_take]
    omega
  · intro n
    have hlen : (applySets now (emptyCache m T) (ops.take n)).entries.length
        = (ckeys (applySets now (emptyCache m T) (ops.take n))).length := by
      simp [ckeys]
    rw [hlen, ckeys_applySets]
    exact foldl_setKey_length m hm _ _ (by simp [ckeys, emptyCache])

/-- Witness for `C2_strict_lru`: setting keys a, b, c, b with capacity 2
leaves exactly \x7bb, c\x7d resident, with c the least recently used. -/
theorem C2_strict_lru_witness :
    ckeys (applySets 0 (emptyCache 2 5) [("a", "1"), ("b", "2"), ("c", "3"), ("b", "4")])
      = ["c", "b"] :=
  ((C2_strict_lru 0 2 5 [("a", "1"), ("b", "2"), ("c", "3"), ("b", "4")]
    (by norm_num) (by decide)).1).trans (by decide)

/-- C7, counterexample: the claim predicts `#sets / 10` disk saves, but the
source triggers `_save_to_disk` when `len(self._cache) % 10 == 0`, i.e. on
the cache SIZE, not the number of `set` calls: ten sets of the same key
leave the size at 1 and trigger zero saves, while the claim predicts
`10 / 10 = 1`. -/
theorem C7_counterexample :
    (applySetsCount 0 (emptyCache 1000 86400) (List.replicate 10 ("a", "b"))).2 = 0
    ∧ (10 : Nat) / 10 = 1 := by
  exact ⟨by decide, rfl⟩

theorem applySetsCount_fresh (now : Nat) :
    ∀ (ops : List (String × String)) (c : Cache),
      (ops.map Prod.fst).Nodup →
      (∀ p ∈ ops, p.1 ∉ ckeys c) →
      c.entries.length + ops.length ≤ c.maxsize →
      (applySetsCount now c ops).2
        = (c.entries.length + ops.length) / 10 - c.entries.length / 10 := by
  intro ops
  induction ops with
  | nil => intro c _ _ _; simp [applySetsCount]
  | cons op rest ih =>
    intro c hnd hfresh hlen
    obtain ⟨k, v⟩ := op
    have hk : k ∉ ckeys c := hfresh (k, v) (List.mem_cons_self _ _)
    have hany := any_key_eq_false_of_not_mem hk
    have hlt : ¬ c.entries.length ≥ c.maxsize := by
      simp only [List.length_cons] at hlen
      omega
    have h1 : (cacheSet now c k v).1 = { c with entries := c.entries ++ [⟨k, v, now⟩] } := by
      simp [cacheSet, hany, hlt]
    have h2 : (cacheSet now c k v).2 = decide ((c.entries.length + 1) % 10 = 0) := by
      simp [cacheSet, hany, hlt]
    have hrest : (applySetsCount now (cacheSet now c k v).1 rest).2
        = (c.entries.length + 1 + rest.length) / 10 - (c.entries.length + 1) / 10 := by
      rw [h1]
      have := ih { c with entries := c.entries ++ [⟨k, v, now⟩] }
        (List.nodup_cons.mp (by simpa using hnd)).2
        (by
          intro p hp hmem
          simp only [ckeys, List.map_append, List.map_cons, List.map_nil,
            List.mem_append, List.mem_cons, List.not_mem_nil] at hmem
          rcases hmem with hmem | hmem
          · exact hfresh p (List.mem_cons_of_mem _ hp) hmem
          · rcases hmem with hmem | hmem
            · exact (List.nodup_cons.mp (by simpa using hnd)).1
                (hmem ▸ List.mem_map_of_mem Prod.fst hp)
            · exact hmem)
        (by simp only [List.length_append, List.length_cons, List.length_nil] at *; omega)
      simpa using this
    show (if (cacheSet now c k v).2 then 1 else 0)
        + (applySetsCount now (cacheSet now c k v).1 rest).2 = _
    rw [h2, hrest]
    simp only [List.length_cons, decide_eq_true_eq]
    by_cases hmod : (c.entries.length + 1) % 10 = 0 <;> simp only [hmod, if_true, if_false] <;>
      omega

/-- C7 (amended): a `_save_to_disk` is triggered by exactly those `set`
calls after which the cache size is a multiple of 10 (the source tests
`len(self._cache) % 10 == 0`, counting residents, not calls); consequently
the claimed count `#sets / 10` does hold for sequences of sets with
pairwise-distinct fresh keys within capacity, where each set grows the
size by one — but not in general (see the counterexample). -/
theorem C7_save_trigger_amended (now : Nat) :
    (∀ (c : Cache) (k v : String),
        (cacheSet now c k v).2 = true ↔ (cacheSet now c k v).1.entries.length % 10 = 0)
    ∧ ∀ (m T : Nat) (ops : List (String × String)),
        (ops.map Prod.fst).Nodup → ops.length ≤ m →
        (applySetsCount now (emptyCache m T) ops).2 = ops.length / 10 := by
  constructor
  · intro c k v
    simp [cacheSet]
  · intro m T ops hnd hlen
    have := applySetsCount_fresh now ops (emptyCache m T) hnd
      (by intro p _ hmem; simp [ckeys, emptyCache] at hmem)
      (by simp [emptyCache]; omega)
    simpa [emptyCache] using this

/-- Witness for `C7_save_trigger_amended`: eleven sets of distinct fresh
keys trigger exactly one save (`11 / 10 = 1`). -/
theorem C7_save_trigger_amended_witness :
    (applySetsCount 0 (emptyCache 1000 86400)
      (((List.range 11).map (fun i => (toString i, "v"))))).2 = 1 :=
  ((C7_save_trigger_amended 0).2 1000 86400 _
    (by decide) (by decide)).trans (by decide)

/-! ### Queue lemmas -/

theorem enqueueAll_of_full (cap : Nat) :
    ∀ (items : List QItem) (q : List QItem), q.length ≥ cap →
      enqueueAll cap q items = (q, items) := by
  intro items
  induction items with
  | nil => intro q _; rfl
  | cons x rest ih =>
    intro q h
    have hfull : ¬ q.length < cap := by omega
    simp [enqueueAll, putNowait, hfull, ih q h]

theorem enqueueAll_spec (cap : Nat) :
    ∀ (items : List QItem) (q : List QItem), q.length ≤ cap →
      enqueueAll cap q items
        = (q ++ items.take (cap - q.length), items.drop (cap - q.length)) := by
  intro items
  induction items with
  | nil => intro q _; simp [enqueueAll]
  | cons x rest ih =>
    intro q h
    by_cases hlt : q.length < cap
    · obtain ⟨k, hk⟩ : ∃ k, cap - q.length = k + 1 := ⟨cap - q.length - 1, by omega⟩
      have hlen : (q ++ [x]).length ≤ cap := by simp; omega
      have hk2 : cap - (q ++ [x]).length = k := by simp; omega
      simp only [enqueueAll, putNowait, hlt, if_true]
      rw [ih (q ++ [x]) hlen, hk2, hk]
      simp [List.append_assoc]
    · have hge : cap ≤ q.length := by omega
      have hc : cap - q.length = 0 := by omega
      rw [enqueueAll_of_full cap (x :: rest) q hge, hc]
      simp

theorem chunks5_flatten : ∀ q : List QItem, (chunks5 q).flatten = q := by
  intro q
  induction q using chunks5.induct with
  | case1 => simp [chunks5]
  | case2 x rest ih =>
    rw [chunks5]
    simp only [List.flatten_cons, ih, List.cons_append]
    rw [List.take_append_drop]

/-! ## Claims C5, C8, C9 -/

/-- C5: the producer uses a non-blocking `put_nowait`; an enqueue onto a
full queue drops that item instead of blocking (the handler catches the
`Full` exception and prints a warning); enqueuing 101 items into the
100-capacity queue keeps the first 100, drops exactly 1, and the dropped
item is in no batch the worker processes, so its completion callback is
never invoked. -/
theorem C5_queue_overflow (items : List QItem)
    (hlen : items.length = 101) (hnd : items.Nodup) :
    (enqueueAll 100 [] items).1 = items.take 100
    ∧ (enqueueAll 100 [] items).2 = items.drop 100
    ∧ (enqueueAll 100 [] items).2.length = 1
    ∧ ∀ x ∈ (enqueueAll 100 [] items).2, x ∉ processedItems (enqueueAll 100 [] items).1 := by
  have hq := enqueueAll_spec 100 items [] (by simp)
  simp only [List.nil_append, List.length_nil, Nat.sub_zero] at hq
  refine ⟨by rw [hq], by rw [hq], ?_, ?_⟩
  · rw [hq]
    simp [hlen]
  · intro x hx
    rw [hq] at hx
    simp only [hq, processedItems, chunks5_flatten]
    have hsplit := List.take_append_drop 100 items
    have hnd2 : (items.take 100 ++ items.drop 100).Nodup := by rwa [hsplit]
    have hdisj := (List.nodup_append.mp hnd2).2.2
    intro hmem
    exact hdisj hmem hx

/-- Witness for `C5_queue_overflow`: 101 concrete items, exactly one
dropped — the 101st — and it is not among the processed items. -/
theorem C5_queue_overflow_witness :
    (enqueueAll 100 [] ((List.range 101).map (fun i => ("t", "s", i)))).2.length = 1
    ∧ (enqueueAll 100 [] ((List.range 101).map (fun i => ("t", "s", i)))).2
        = [("t", "s", 100)] :=
  ⟨(C5_queue_overflow ((List.range 101).map (fun i => ("t", "s", i)))
      (by simp) (by decide)).2.2.1,
   ((C5_queue_overflow ((List.range 101).map (fun i => ("t", "s", i)))
      (by simp) (by decide)).2.1).trans (by decide)⟩

/-- C8: a keepalive cycle at time `t` leaves `last_audio_time` untouched
and sends the fixed 1920-byte silence frame iff more than 8 seconds have
passed since the last audio byte; because the timestamp is not updated,
once a cycle fires, every later 5-second cycle during continuous silence
fires too; sending nonempty real audio resets the timer to the send
time. -/
theorem C8_keepalive (last start t dataLen i j : Nat) :
    ((keepaliveCycle last t).2 = last
      ∧ ((keepaliveCycle last t).1 = some silencePacketSize ↔ 8 < t - last)
      ∧ silencePacketSize = 1920)
    ∧ (i ≤ j → keepaliveSends last (cycleTime start i) = true →
        keepaliveSends last (cycleTime start j) = true)
    ∧ (dataLen ≠ 0 → audioSendStep last t dataLen = t) := by
  refine ⟨⟨rfl, ?_, rfl⟩, ?_, ?_⟩
  · simp only [keepaliveCycle, keepaliveSends]
    by_cases hgt : t - last > 8 <;> simp [hgt]
  · intro hij hsend
    simp only [keepaliveSends, cycleTime, decide_eq_true_eq] at hsend ⊢
    omega
  · intro h
    simp [audioSendStep, h]

/-- Witness for `C8_keepalive`: with the last audio byte at time 0, the
cycle at time 20 sends a frame, the third cycle after a start at 0 fires,
and an audio send at time 20 resets the timer to 20. -/
theorem C8_keepalive_witness :
    (keepaliveCycle 0 20).1 = some silencePacketSize
    ∧ keepaliveSends 0 (cycleTime 0 2) = true
    ∧ audioSendStep 0 20 5 = 20 :=
  ⟨(C8_keepalive 0 0 20 5 1 2).1.2.1.mpr (by norm_num),
   (C8_keepalive 0 0 20 5 1 2).2.1 (by norm_num) (by decide),
   (C8_keepalive 0 0 20 5 1 2).2.2 (by norm_num)⟩

/-- C9 (implicit): when language auto-detection reports the input is
already in the target language (a truthy detection equal to `target`),
`translate` returns the input unchanged with the service state — cache
and every metric counter — completely untouched, and (providers being
invoked only on the paths below the short-circuit) no provider is
called. -/
theorem C9_detect_shortcut (cfg : ServiceCfg) (now : Nat) (st : ServiceState)
    (text l : String)
    (hb : isBlank text = false) (hi : cfg.impl.isNone = false)
    (hd : detect_language cfg text = some l) (hne : l ≠ "") (hl : l = cfg.target) :
    translate cfg now st text = (text, st) := by
  have hdt : detectedTarget cfg text = true := by
    subst hl
    rw [detectedTarget, hd]
    have hE : cfg.target.isEmpty = false := by
      rw [Bool.eq_false_iff]
      intro h
      exact hne ((String.isEmpty_iff cfg.target).mp h)
    simp [hE]
  unfold translate
  simp [hb, hi, hdt]

/-- Witness for `C9_detect_shortcut`: a service whose detector reports the
target language "es" returns the text with nothing changed. -/
theorem C9_detect_shortcut_witness :
    translate
      ⟨some (fun t => some ("X" ++ t)), "mock", none, true, true,
        fun _ => some "es", "es", "en", id⟩
      0 ⟨emptyCache 1000 86400, Metrics.zero⟩ "hola"
      = ("hola", ⟨emptyCache 1000 86400, Metrics.zero⟩) :=
  C9_detect_shortcut _ 0 _ "hola" "es" (by decide) rfl rfl (by decide) rfl

/-! ### Provider and translate-path lemmas -/

theorem attemptPreferred_fst (cfg : ServiceCfg) (m : Metrics) (text : String) :
    (attemptPreferred cfg m text).1 = preferredResult cfg text := by
  unfold attemptPreferred preferredResult
  cases cfg.impl with
  | none => rfl
  | some p =>
    by_cases h1 : cfg.preferredProvider == "deepl" <;>
      by_cases h2 : cfg.preferredProvider == "google" <;>
        by_cases h3 : cfg.preferredProvider == "mock" <;>
          cases hp : p text <;>
            simp [h1, h2, h3, hp]

theorem attemptPreferred_total (cfg : ServiceCfg) (m : Metrics) (text : String) :
    (attemptPreferred cfg m text).2.total_requests = m.total_requests := by
  unfold attemptPreferred
  cases cfg.impl with
  | none => rfl
  | some p =>
    by_cases h1 : cfg.preferredProvider == "deepl" <;>
      by_cases h2 : cfg.preferredProvider == "google" <;>
        by_cases h3 : cfg.preferredProvider == "mock" <;>
          cases hp : p text <;>
            simp [h1, h2, h3, hp]

theorem translate_with_fallback_fst (cfg : ServiceCfg) (m : Metrics) (text : String) :
    (translate_with_fallback cfg m text).1 = fallbackResult cfg text := by
  unfold translate_with_fallback fallbackResult
  by_cases hb : isBlank text
  · simp [hb]
  · simp only [hb, Bool.false_eq_true, if_false]
    rcases hA : attemptPreferred cfg { m with total_requests := m.total_requests + 1 } text
      with ⟨o, m1⟩
    have ho : preferredResult cfg text = o := by
      rw [← attemptPreferred_fst cfg { m with total_requests := m.total_requests + 1 } text,
        hA]
    rw [ho]
    cases o with
    | some r => simp
    | none =>
      cases hf : cfg.fallback with
      | none => simp
      | some f => cases hft : f text <;> simp [hft]

theorem translate_with_fallback_total (cfg : ServiceCfg) (m : Metrics) (text : String)
    (hb : isBlank text = false) :
    (translate_with_fallback cfg m text).2.total_requests = m.total_requests + 1 := by
  unfold translate_with_fallback
  simp only [hb, Bool.false_eq_true, if_false]
  rcases hA : attemptPreferred cfg { m with total_requests := m.total_requests + 1 } text
    with ⟨o, m1⟩
  have hm1 : m1.total_requests = m.total_requests + 1 := by
    have := attemptPreferred_total cfg { m with total_requests := m.total_requests + 1 } text
    rw [hA] at this
    exact this
  cases o with
  | some r => simpa using hm1
  | none =>
    cases hf : cfg.fallback with
    | none => simpa using hm1
    | some f => cases hft : f text <;> simpa [hft] using hm1

theorem find?_key_filter_ne {l : List CEntry} {k k2 : String} (hne : k ≠ k2) :
    (l.filter (fun e => e.key != k2)).find? (fun e => e.key == k)
      = l.find? (fun e => e.key == k) := by
  induction l with
  | nil => rfl
  | cons a rest ih =>
    by_cases ha : a.key = k
    · have h1 : (a.key != k2) = true := by simp [ha, hne]
      have h2 : (a.key == k) = true := by simp [ha]
      simp [List.filter_cons, h1, List.find?_cons, h2]
    · have h2 : (a.key == k) = false := by simp [ha]
      by_cases hk2 : a.key = k2
      · have h1 : (a.key != k2) = false := by simp [hk2]
        simp [List.filter_cons, h1, List.find?_cons, h2, ih]
      · have h1 : (a.key != k2) = true := by simp [hk2]
        simp [List.filter_cons, h1, List.find?_cons, h2, ih]

theorem find?_key_filter_self {l : List CEntry} {k : String} :
    (l.filter (fun e => e.key != k)).find? (fun e => e.key == k) = none := by
  apply List.find?_eq_none.mpr
  intro x hx
  have hne := (List.mem_filter.mp hx).2
  simp only [bne_iff_ne, ne_eq, decide_eq_true_eq] at hne
  simp [hne]

theorem find?_key_append {l1 l2 : List CEntry} {k : String} :
    (l1 ++ l2).find? (fun e => e.key == k)
      = match l1.find? (fun e => e.key == k) with
        | some e => some e
        | none => l2.find? (fun e => e.key == k) := by
  induction l1 with
  | nil => simp
  | cons a rest ih =>
    by_cases ha : (a.key == k) = true
    · simp [List.find?_cons, ha]
    · have ha' : (a.key == k) = false := by simpa using ha
      simp [List.find?_cons, ha', ih]

/-- A `get` never changes what a later `get` of any key would return at
the same time: move-to-end keeps the entry intact, and expiry eviction
removes only an entry that already reads as a miss. -/
theorem getVal_cacheGet_snd (now : Nat) (c : Cache) (k2 k : String) :
    getVal now (cacheGet now c k2).2 k = getVal now c k := by
  unfold cacheGet
  cases hf : c.entries.find? (fun e => e.key == k2) with
  | none => rfl
  | some e =>
    have hek : e.key = k2 := by
      have := List.find?_some hf
      simpa using this
    by_cases hkk : k = k2
    · subst hkk
      by_cases hl : now - e.storedAt > c.ttl
      · simp only [hl, if_true]
        unfold getVal
        simp only [find?_key_filter_self, hf, hl, if_true]
      · simp only [hl, if_false]
        unfold getVal
        rw [find?_key_append]
        have he1 : [e].find? (fun e' => e'.key == k) = some e := by
          simp [List.find?_cons, hek]
        simp only [find?_key_filter_self, he1, hf]
    · by_cases hl : now - e.storedAt > c.ttl
      · simp only [hl, if_true]
        unfold getVal
        rw [find?_key_filter_ne hkk]
      · simp only [hl, if_false]
        unfold getVal
        rw [find?_key_append, find?_key_filter_ne hkk]
        have he1 : [e].find? (fun e' => e'.key == k) = none := by
          simp [List.find?_cons, hek, Ne.symm hkk]
        rw [he1]
        cases c.entries.find? (fun e' => e'.key == k) <;> simp

/-- Evaluation of a one-element `translate_batch` on a cache miss: the
single result and final counters are those of `_translate_with_fallback`,
and the cache is updated only when the translation differs from the
input. -/
theorem translate_batch_single_miss (cfg : ServiceCfg) (now : Nat) (c : Cache)
    (m : Metrics) (t : String) (hi : cfg.impl.isNone = false)
    (hb : isBlank t = false) (hec : cfg.enableCache = true)
    (hmiss : getVal now c (get_cache_key cfg t) = none) :
    (translate_batch cfg now ⟨c, m⟩ [t]).1 = [(translate_with_fallback cfg m t).1]
    ∧ (translate_batch cfg now ⟨c, m⟩ [t]).2.metrics = (translate_with_fallback cfg m t).2
    ∧ (translate_batch cfg now ⟨c, m⟩ [t]).2.cache
        = (if (translate_with_fallback cfg m t).1 != t
            then (cacheSet now (cacheGet now c (get_cache_key cfg t)).2
                   (get_cache_key cfg t) (translate_with_fallback cfg m t).1).1
            else (cacheGet now c (get_cache_key cfg t)).2) := by
  have hg1 : (cacheGet now c (get_cache_key cfg t)).1 = none := by
    rw [cacheGet_fst_eq_getVal]
    exact hmiss
  unfold translate_batch
  simp only [List.isEmpty_cons, hi, Bool.or_false, Bool.false_eq_true, if_false]
  unfold batchScan
  simp only [hb, Bool.false_eq_true, if_false, hec, if_true, hg1]
  unfold batchScan
  simp only [List.isEmpty_cons, List.isEmpty_nil, Bool.false_eq_true, if_false]
  unfold translate_batch_api translate_batch_api
  unfold batchFill batchFill
  simp [hec]

/-- Evaluation of `translate` on a non-blank text with a provider, no
detection short-circuit, caching enabled and a cache miss: the result is
the provider-fallback value and the counters are those of
`_translate_with_fallback`. -/
theorem translate_miss (cfg : ServiceCfg) (now : Nat) (st : ServiceState)
    (text : String) (hb : isBlank text = false) (hi : cfg.impl.isNone = false)
    (hdt : detectedTarget cfg text = false) (hec : cfg.enableCache = true)
    (hmiss : getVal now st.cache (get_cache_key cfg text) = none) :
    (translate cfg now st text).1 = fallbackResult cfg text
    ∧ (translate cfg now st text).2.metrics
        = (translate_with_fallback cfg st.metrics text).2 := by
  have hg1 : (cacheGet now st.cache (get_cache_key cfg text)).1 = none := by
    rw [cacheGet_fst_eq_getVal]
    exact hmiss
  have hg2 : getVal now (cacheGet now st.cache (get_cache_key cfg text)).2
      (get_cache_key cfg text) = none := by
    rw [getVal_cacheGet_snd]
    exact hmiss
  have hbt := translate_batch_single_miss cfg now
    (cacheGet now st.cache (get_cache_key cfg text)).2 st.metrics text hi hb hec hg2
  unfold translate
  simp only [hb, hi, Bool.or_self, Bool.false_eq_true, if_false, hdt, hec, if_true, hg1]
  rw [hbt.1]
  refine ⟨by simp [translate_with_fallback_fst], ?_⟩
  exact hbt.2.1

/-! ## Claims C3, C6, C10 -/

/-- C3: for a non-blank text reaching the providers (no detection
short-circuit, cache miss) with preferred provider "deepl" whose call
raises: if a fallback is configured and succeeds, its value is returned
and the counters record exactly one preferred attempt (request + error)
and exactly one fallback request; if the fallback also fails, or none is
configured, the input text is returned unchanged — never an exception,
the embedding being total. -/
theorem C3_provider_fallback (cfg : ServiceCfg) (now : Nat) (st : ServiceState)
    (text : String) (p : Provider)
    (hb : isBlank text = false)
    (hp : cfg.impl = some p)
    (hpp : cfg.preferredProvider = "deepl")
    (hfail : p text = none)
    (hdt : detectedTarget cfg text = false)
    (hec : cfg.enableCache = true)
    (hmiss : getVal now st.cache (get_cache_key cfg text) = none) :
    (∀ f, cfg.fallback = some f → ∀ v, f text = some v →
        (translate cfg now st text).1 = v
        ∧ (translate cfg now st text).2.metrics
            = { st.metrics with
                total_requests := st.metrics.total_requests + 1,
                deepl_requests := st.metrics.deepl_requests + 1,
                deepl_errors := st.metrics.deepl_errors + 1,
                google_requests := st.metrics.google_requests + 1 })
    ∧ (∀ f, cfg.fallback = some f → f text = none →
        (translate cfg now st text).1 = text
        ∧ (translate cfg now st text).2.metrics
            = { st.metrics with
                total_requests := st.metrics.total_requests + 1,
                deepl_requests := st.metrics.deepl_requests + 1,
                deepl_errors := st.metrics.deepl_errors + 1,
                google_requests := st.metrics.google_requests + 1,
                google_errors := st.metrics.google_errors + 1 })
    ∧ (cfg.fallback = none →
        (translate cfg now st text).1 = text
        ∧ (translate cfg now st text).2.metrics
            = { st.metrics with
                total_requests := st.metrics.total_requests + 1,
                deepl_requests := st.metrics.deepl_requests + 1,
                deepl_errors := st.metrics.deepl_errors + 1 }) := by
  have hi : cfg.impl.isNone = false := by rw [hp]; rfl
  have hT := translate_miss cfg now st text hb hi hdt hec hmiss
  refine ⟨?_, ?_, ?_⟩
  · intro f hf v hv
    constructor
    · rw [hT.1]
      unfold fallbackResult preferredResult
      simp [hb, hp, hpp, hfail, hf, hv]
    · rw [hT.2]
      unfold translate_with_fallback attemptPreferred
      simp [hb, hp, hpp, hfail, hf, hv]
  · intro f hf hv
    constructor
    · rw [hT.1]
      unfold fallbackResult preferredResult
      simp [hb, hp, hpp, hfail, hf, hv]
    · rw [hT.2]
      unfold translate_with_fallback attemptPreferred
      simp [hb, hp, hpp, hfail, hf, hv]
  · intro hf
    constructor
    · rw [hT.1]
      unfold fallbackResult preferredResult
      simp [hb, hp, hpp, hfail, hf]
    · rw [hT.2]
      unfold translate_with_fallback attemptPreferred
      simp [hb, hp, hpp, hfail, hf]

/-- Witness for `C3_provider_fallback`: the spec scenario — a deepl
primary that always raises and a fallback prefixing the text — yields
`translate("x") = "fallback_x"`, one primary error and one fallback
request. -/
theorem C3_provider_fallback_witness :
    (translate
      ⟨some (fun _ => none), "deepl", some (fun t => some ("fallback_" ++ t)), true, false,
        fun _ => none, "es", "en", id⟩
      0 ⟨emptyCache 1000 86400, Metrics.zero⟩ "x").1 = "fallback_x"
    ∧ (translate
      ⟨some (fun _ => none), "deepl", some (fun t => some ("fallback_" ++ t)), true, false,
        fun _ => none, "es", "en", id⟩
      0 ⟨emptyCache 1000 86400, Metrics.zero⟩ "x").2.metrics
        = ⟨1, 1, 1, 0, 0, 1⟩ := by
  have h := (C3_provider_fallback
    ⟨some (fun _ => none), "deepl", some (fun t => some ("fallback_" ++ t)), true, false,
      fun _ => none, "es", "en", id⟩
    0 ⟨emptyCache 1000 86400, Metrics.zero⟩ "x" (fun _ => none)
    (by decide) rfl rfl rfl rfl rfl rfl).1
    (fun t => some ("fallback_" ++ t)) rfl "fallback_x" (by decide)
  exact ⟨h.1, h.2⟩

/-- C6, counterexample: a blank input returns before
`_translate_with_fallback`, which holds the only increment of
`total_requests`, so this `translate` call leaves the counter at 0 while
the claim requires every call to increment it to 1. -/
theorem C6_counterexample :
    (translate
      ⟨some (fun t => some t), "deepl", none, true, false, fun _ => none, "es", "en", id⟩
      0 ⟨emptyCache 1000 86400, Metrics.zero⟩ "").2.metrics.total_requests = 0
    ∧ (0 : Nat) ≠ 0 + 1 := by
  exact ⟨rfl, by norm_num⟩

/-- C6 (amended): `translate` increments `total_requests` exactly on the
calls that reach a provider attempt — non-blank text, provider present, no
detection short-circuit, cache miss.  Blank inputs (and absent providers)
and detection short-circuits return with every counter unchanged; a cache
hit increments only `cache_hits`; and on the provider path the deepl and
google request and error counters are incremented on each attempt and
failure of the respective provider. -/
theorem C6_total_requests_amended (cfg : ServiceCfg) (now : Nat) (st : ServiceState)
    (text : String) :
    (isBlank text = true ∨ cfg.impl.isNone = true → translate cfg now st text = (text, st))
    ∧ (isBlank text = false → cfg.impl.isNone = false → detectedTarget cfg text = true →
        translate cfg now st text = (text, st))
    ∧ (∀ v, isBlank text = false → cfg.impl.isNone = false →
        detectedTarget cfg text = false → cfg.enableCache = true →
        getVal now st.cache (get_cache_key cfg text) = some v →
        (translate cfg now st text).2.metrics
          = { st.metrics with cache_hits := st.metrics.cache_hits + 1 })
    ∧ (isBlank text = false → cfg.impl.isNone = false →
        detectedTarget cfg text = false → cfg.enableCache = true →
        getVal now st.cache (get_cache_key cfg text) = none →
        (translate cfg now st text).2.metrics.total_requests
          = st.metrics.total_requests + 1)
    ∧ (∀ m p, cfg.impl = some p → cfg.preferredProvider = "deepl" →
        (attemptPreferred cfg m text).2.deepl_requests = m.deepl_requests + 1
        ∧ (p text = none →
            (attemptPreferred cfg m text).2.deepl_errors = m.deepl_errors + 1))
    ∧ (∀ m p, cfg.impl = some p → cfg.preferredProvider = "google" →
        (attemptPreferred cfg m text).2.google_requests = m.google_requests + 1
        ∧ (p text = none →
            (attemptPreferred cfg m text).2.google_errors = m.google_errors + 1)) := by
  refine ⟨?_, ?_, ?_, ?_, ?_, ?_⟩
  · intro h
    unfold translate
    rcases h with h | h <;> simp [h]
  · intro hb hi hdt
    unfold translate
    simp [hb, hi, hdt]
  · intro v hb hi hdt hec hhit
    have hg1 : (cacheGet now st.cache (get_cache_key cfg text)).1 = some v := by
      rw [cacheGet_fst_eq_getVal]
      exact hhit
    unfold translate
    simp [hb, hi, hdt, hec, hg1]
  · intro hb hi hdt hec hmiss
    rw [(translate_miss cfg now st text hb hi hdt hec hmiss).2]
    exact translate_with_fallback_total cfg st.metrics text hb
  · intro m p hp hpp
    unfold attemptPreferred
    refine ⟨?_, ?_⟩
    · cases hpt : p text <;> simp [hp, hpp, hpt]
    · intro hfail
      simp [hp, hpp, hfail]
  · intro m p hp hpp
    unfold attemptPreferred
    refine ⟨?_, ?_⟩
    · cases hpt : p text <;> simp [hp, hpp, hpt]
    · intro hfail
      simp [hp, hpp, hfail]

/-- Witness for `C6_total_requests_amended`: a cache hit increments only
`cache_hits`, leaving `total_requests` at 0. -/
theorem C6_total_requests_amended_witness :
    (translate
      ⟨some (fun t => some t), "deepl", none, true, false, fun _ => none, "es", "en", id⟩
      0 ⟨⟨1000, 10, [⟨"x", "hola", 0⟩]⟩, Metrics.zero⟩ "x").2.metrics
      = ⟨0, 0, 0, 0, 1, 0⟩ :=
  (C6_total_requests_amended
    ⟨some (fun t => some t), "deepl", none, true, false, fun _ => none, "es", "en", id⟩
    0 ⟨⟨1000, 10, [⟨"x", "hola", 0⟩]⟩, Metrics.zero⟩ "x").2.2.1 "hola"
    (by decide) rfl rfl rfl rfl

/-- C10 (implicit): `translate_batch` caches a translation only when it
differs from the input; when the key is uncached and all providers fail,
the returned value is the input itself, nothing is stored (a subsequent
lookup of the key still misses at the same time), and if the key was not
resident at all, the cache object is left completely unchanged — so a
failed translation is retried on the next request instead of being served
from the cache. -/
theorem C10_failed_not_cached (cfg : ServiceCfg) (now : Nat) (c : Cache)
    (m : Metrics) (t : String)
    (hi : cfg.impl.isNone = false) (hb : isBlank t = false)
    (hec : cfg.enableCache = true)
    (hmiss : getVal now c (get_cache_key cfg t) = none)
    (hpfail : preferredResult cfg t = none)
    (hffail : ∀ f, cfg.fallback = some f → f t = none) :
    (translate_batch cfg now ⟨c, m⟩ [t]).1 = [t]
    ∧ getVal now (translate_batch cfg now ⟨c, m⟩ [t]).2.cache (get_cache_key cfg t) = none
    ∧ (c.entries.find? (fun e => e.key == get_cache_key cfg t) = none →
        (translate_batch cfg now ⟨c, m⟩ [t]).2.cache = c) := by
  have hres : fallbackResult cfg t = t := by
    unfold fallbackResult
    simp only [hb, Bool.false_eq_true, if_false, hpfail]
    cases hf : cfg.fallback with
    | none => rfl
    | some f => simp [hffail f hf]
  have htw : (translate_with_fallback cfg m t).1 = t := by
    rw [translate_with_fallback_fst, hres]
  have hB := translate_batch_single_miss cfg now c m t hi hb hec hmiss
  have hcache : (translate_batch cfg now ⟨c, m⟩ [t]).2.cache
      = (cacheGet now c (get_cache_key cfg t)).2 := by
    rw [hB.2.2, htw]
    simp
  refine ⟨?_, ?_, ?_⟩
  · rw [hB.1, htw]
  · rw [hcache, getVal_cacheGet_snd]
    exact hmiss
  · intro habs
    rw [hcache]
    unfold cacheGet
    rw [habs]

/-- Witness for `C10_failed_not_cached`: with all providers failing on a
fresh key, the one-element batch returns the input and the (empty) cache
is unchanged. -/
theorem C10_failed_not_cached_witness :
    (translate_batch
      ⟨some (fun _ => none), "deepl", none, true, false, fun _ => none, "es", "en", id⟩
      0 ⟨emptyCache 1000 86400, Metrics.zero⟩ ["x"]).1 = ["x"]
    ∧ (translate_batch
      ⟨some (fun _ => none), "deepl", none, true, false, fun _ => none, "es", "en", id⟩
      0 ⟨emptyCache 1000 86400, Metrics.zero⟩ ["x"]).2.cache = emptyCache 1000 86400 := by
  have h := C10_failed_not_cached
    ⟨some (fun _ => none), "deepl", none, true, false, fun _ => none, "es", "en", id⟩
    0 (emptyCache 1000 86400) Metrics.zero "x" rfl (by decide) rfl rfl rfl
    (by intro f hf; cases hf)
  exact ⟨h.1, h.2.2 rfl⟩

/-! ### Batch-vs-single lemmas (claim C4) -/

theorem scanCell_cacheGet (cfg : ServiceCfg) (now : Nat) (c : Cache) (k2 t : String) :
    scanCell cfg now (cacheGet now c k2).2 t = scanCell cfg now c t := by
  unfold scanCell
  by_cases hb : isBlank t
  · simp [hb]
  · by_cases hec : cfg.enableCache <;> simp [hb, hec, getVal_cacheGet_snd]

theorem batchScan_fst (cfg : ServiceCfg) (now : Nat) :
    ∀ (ts : List String) (c : Cache),
      (batchScan cfg now ts c).1 = ts.map (scanCell cfg now c) := by
  intro ts
  induction ts with
  | nil => intro c; rfl
  | cons t rest ih =>
    intro c
    unfold batchScan
    by_cases hb : isBlank t
    · simp only [hb, if_true, List.map_cons, ih]
      have hcell : scanCell cfg now c t = some t := by simp [scanCell, hb]
      rw [hcell]
    · by_cases hec : cfg.enableCache
      · have hcell : scanCell cfg now c t
            = (cacheGet now c (get_cache_key cfg t)).1 := by
          simp [scanCell, hb, hec, cacheGet_fst_eq_getVal]
        cases hg : (cacheGet now c (get_cache_key cfg t)).1 with
        | some v =>
          simp only [hb, Bool.false_eq_true, if_false, hec, if_true, hg, List.map_cons, ih]
          rw [hcell, hg]
          apply congrArg
          exact List.map_congr_left (fun t' _ => scanCell_cacheGet cfg now c _ t')
        | none =>
          simp only [hb, Bool.false_eq_true, if_false, hec, if_true, hg, List.map_cons, ih]
          rw [hcell, hg]
          apply congrArg
          exact List.map_congr_left (fun t' _ => scanCell_cacheGet cfg now c _ t')
      · have hcell : scanCell cfg now c t = none := by simp [scanCell, hb, hec]
        simp only [hb, Bool.false_eq_true, if_false, hec, List.map_cons, ih]
        rw [hcell]

theorem batchScan_uncached (cfg : ServiceCfg) (now : Nat) :
    ∀ (ts : List String) (c : Cache),
      (batchScan cfg now ts c).2.1
        = ts.filter (fun t => (scanCell cfg now c t).isNone) := by
  intro ts
  induction ts with
  | nil => intro c; rfl
  | cons t rest ih =>
    intro c
    unfold batchScan
    by_cases hb : isBlank t
    · have hcell : scanCell cfg now c t = some t := by simp [scanCell, hb]
      simp only [hb, if_true, ih, List.filter_cons, hcell]
      simp
    · by_cases hec : cfg.enableCache
      · have hcell : scanCell cfg now c t
            = (cacheGet now c (get_cache_key cfg t)).1 := by
          simp [scanCell, hb, hec, cacheGet_fst_eq_getVal]
        cases hg : (cacheGet now c (get_cache_key cfg t)).1 with
        | some v =>
          simp only [hb, Bool.false_eq_true, if_false, hec, if_true, hg, ih,
            List.filter_cons, hcell]
          rw [List.filter_congr (fun t' _ => by
            rw [scanCell_cacheGet cfg now c (get_cache_key cfg t) t'])]
          simp
        | none =>
          simp only [hb, Bool.false_eq_true, if_false, hec, if_true, hg, ih,
            List.filter_cons, hcell]
          rw [List.filter_congr (fun t' _ => by
            rw [scanCell_cacheGet cfg now c (get_cache_key cfg t) t'])]
          simp
      · have hcell : scanCell cfg now c t = none := by simp [scanCell, hb, hec]
        simp only [hb, Bool.false_eq_true, if_false, hec, ih, List.filter_cons, hcell]
        simp

theorem translate_batch_api_fst (cfg : ServiceCfg) :
    ∀ (ts : List String) (m : Metrics),
      (translate_batch_api cfg ts m).1 = ts.map (fallbackResult cfg) := by
  intro ts
  induction ts with
  | nil => intro m; rfl
  | cons t rest ih =>
    intro m
    unfold translate_batch_api
    simp only [List.map_cons, ih, translate_with_fallback_fst]

theorem zip_self_map (l : List String) (f : String → String) :
    l.zip (l.map f) = l.map (fun t => (t, f t)) := by
  induction l with
  | nil => rfl
  | cons t rest ih => simp [ih]

theorem batchFill_fst (cfg : ServiceCfg) (now : Nat) (c0 : Cache) :
    ∀ (ts : List String) (c : Cache),
      (batchFill cfg now (ts.map (scanCell cfg now c0))
        ((ts.filter (fun t => (scanCell cfg now c0 t).isNone)).map
          (fun t => (t, fallbackResult cfg t))) c).1
      = ts.map (itemVal cfg now c0) := by
  intro ts
  induction ts with
  | nil => intro c; rfl
  | cons t rest ih =>
    intro c
    cases ho : scanCell cfg now c0 t with
    | some v =>
      simp only [List.map_cons, List.filter_cons, ho, Option.isNone_some,
        Bool.false_eq_true, if_false]
      unfold batchFill
      simp only [ih]
      rw [itemVal, ho]
    | none =>
      simp only [List.map_cons, List.filter_cons, ho, Option.isNone_none, if_true]
      unfold batchFill
      simp only [List.map_cons, ih]
      rw [itemVal, ho]

/-- The results of `translate_batch` are the per-item values against the
pre-call cache: blank texts unchanged, cached texts their cached value,
misses the provider-fallback value. -/
theorem translate_batch_fst_map (cfg : ServiceCfg) (now : Nat) (st : ServiceState)
    (texts : List String) (hi : cfg.impl.isNone = false) :
    (translate_batch cfg now st texts).1 = texts.map (itemVal cfg now st.cache) := by
  by_cases hte : texts.isEmpty
  · obtain rfl : texts = [] := by rwa [List.isEmpty_iff] at hte
    simp [translate_batch]
  · unfold translate_batch
    have hte' : texts.isEmpty = false := by simpa using hte
    simp only [hte', hi, Bool.or_self, Bool.false_eq_true, if_false]
    rw [batchScan_fst, batchScan_uncached]
    by_cases hus : (texts.filter fun t => (scanCell cfg now st.cache t).isNone).isEmpty
    · simp only [hus, if_true, List.map_map]
      have hall : ∀ t ∈ texts, ¬ ((scanCell cfg now st.cache t).isNone = true) := by
        rw [List.isEmpty_iff, List.filter_eq_nil_iff] at hus
        exact hus
      apply List.map_congr_left
      intro t ht
      cases ho : scanCell cfg now st.cache t with
      | none => exact absurd (by rw [ho]; rfl) (hall t ht)
      | some v =>
        simp only [Function.comp_apply, ho, Option.getD_some]
        rw [itemVal, ho]
    · simp only [hus, Bool.false_eq_true, if_false]
      rw [translate_batch_api_fst, zip_self_map]
      exact batchFill_fst cfg now st.cache texts _

/-- Evaluation of a one-element `translate_batch` with caching disabled:
the single result is that of `_translate_with_fallback`. -/
theorem translate_batch_single_nocache (cfg : ServiceCfg) (now : Nat) (st : ServiceState)
    (t : String) (hi : cfg.impl.isNone = false)
    (hb : isBlank t = false) (hec : cfg.enableCache = false) :
    (translate_batch cfg now st [t]).1 = [(translate_with_fallback cfg st.metrics t).1] := by
  unfold translate_batch
  simp only [List.isEmpty_cons, hi, Bool.or_false, Bool.false_eq_true, if_false]
  unfold batchScan batchScan
  simp only [hb, Bool.false_eq_true, if_false, hec]
  unfold translate_batch_api translate_batch_api
  unfold batchFill batchFill
  simp [hec]

/-- The result of a single `translate` call equals the per-item batch
value against the same pre-call cache, provided the detection
short-circuit does not fire. -/
theorem translate_fst_itemVal (cfg : ServiceCfg) (now : Nat) (st : ServiceState)
    (t : String) (hi : cfg.impl.isNone = false) (hdt : detectedTarget cfg t = false) :
    (translate cfg now st t).1 = itemVal cfg now st.cache t := by
  by_cases hb : isBlank t
  · unfold translate itemVal scanCell
    simp [hb]
  · have hb' : isBlank t = false := by simpa using hb
    by_cases hec : cfg.enableCache
    · cases hv : getVal now st.cache (get_cache_key cfg t) with
      | some v =>
        have hg1 : (cacheGet now st.cache (get_cache_key cfg t)).1 = some v := by
          rw [cacheGet_fst_eq_getVal]
          exact hv
        unfold translate itemVal scanCell
        simp [hb', hi, hdt, hec, hg1, hv]
      | none =>
        rw [(translate_miss cfg now st t hb' hi hdt hec hv).1]
        unfold itemVal scanCell
        simp [hb', hec, hv]
    · have hec' : cfg.enableCache = false := by simpa using hec
      unfold translate
      simp only [hb', hi, Bool.or_self, Bool.false_eq_true, if_false, hdt, hec']
      rw [translate_batch_single_nocache cfg now st t hi hb' hec']
      unfold itemVal scanCell
      simp [hb', hec', translate_with_fallback_fst]

/-! ## Claim C4 -/

/-- C4, counterexample: `translate` has a language-detection short-circuit
that `translate_batch` lacks.  With auto-detection reporting the target
language, `translate("x")` returns `"x"` unchanged while
`translate_batch(["x"])` calls the provider and returns `["X"]` — so the
i-th batch element does not equal the individual `translate` result. -/
theorem C4_counterexample :
    (translate
      ⟨some (fun _ => some "X"), "mock", none, false, true, fun _ => some "es", "es", "en", id⟩
      0 ⟨emptyCache 1000 86400, Metrics.zero⟩ "x").1 = "x"
    ∧ (translate_batch
      ⟨some (fun _ => some "X"), "mock", none, false, true, fun _ => some "es", "es", "en", id⟩
      0 ⟨emptyCache 1000 86400, Metrics.zero⟩ ["x"]).1 = ["X"]
    ∧ ("x" : String) ≠ "X" := by
  refine ⟨rfl, rfl, by decide⟩

/-- C4 (amended): whenever the detection short-circuit does not fire for
the inputs (detection disabled, unavailable, or reporting something other
than the target language), `translate_batch` returns one result per input,
in order, and its i-th element equals the result `translate` produces for
`texts[i]` alone from the same pre-call state (expressed as a `map`, which
also yields the length and order claims). -/
theorem C4_batch_pointwise_amended (cfg : ServiceCfg) (now : Nat) (st : ServiceState)
    (texts : List String)
    (hdt : ∀ t ∈ texts, detectedTarget cfg t = false) :
    (translate_batch cfg now st texts).1
      = texts.map (fun t => (translate cfg now st t).1) := by
  by_cases hi : cfg.impl.isNone
  · have hback : ∀ t, (translate cfg now st t).1 = t := by
      intro t
      unfold translate
      simp [hi]
    unfold translate_batch
    simp only [hi, Bool.or_true, if_true]
    simp [hback]
  · have hi' : cfg.impl.isNone = false := Bool.eq_false_iff.mpr hi
    rw [translate_batch_fst_map cfg now st texts hi']
    apply List.map_congr_left
    intro t ht
    exact (translate_fst_itemVal cfg now st t hi' (hdt t ht)).symm

/-- Witness for `C4_batch_pointwise_amended`: with detection off, a
three-element batch (a cache hit, a miss, a blank) equals the three
individual `translate` results. -/
theorem C4_batch_pointwise_amended_witness :
    (translate_batch
      ⟨some (fun t => some ("P" ++ t)), "mock", none, true, false, fun _ => none,
        "es", "en", id⟩
      0 ⟨⟨1000, 10, [⟨"a", "hola", 0⟩]⟩, Metrics.zero⟩ ["a", "b", " "]).1
      = ["hola", "Pb", " "] :=
  (C4_batch_pointwise_amended
    ⟨some (fun t => some ("P" ++ t)), "mock", none, true, false, fun _ => none,
      "es", "en", id⟩
    0 ⟨⟨1000, 10, [⟨"a", "hola", 0⟩]⟩, Metrics.zero⟩ ["a", "b", " "]
    (by intro t _; rfl)).trans (by decide)

end DeepTanslatey
